import Mathlib

/-!
Verification development for the LevSeq variant-calling engine
(`src/minION/variantcaller.py`).

The definitions below are a shallow embedding of the Python source:

* `alignmentFromCigar` embeds `VariantCaller._alignment_from_cigar`
  (variantcaller.py lines 258-323), with Python string slicing modelled
  faithfully by `pySlice` (negative indices, clamping).
* `getSeqRows` embeds the per-gene pileup/tally loop of
  `VariantCaller._get_seq_df` (lines 325-445): coverage gates, per-read
  reconstruction and padding, per-read-id deduplication keeping the
  highest-quality row, and the per-column tally that appends one row per
  qualifying reference column.
* `aggregateWell`, `processWell` and `bonferroniAdjust` embed the per-well
  aggregation and Bonferroni correction of `get_variant_df`
  (lines 196-256).  Float NaN values in the source (`float("nan")`,
  `np.mean([])`) are modelled by `Option` with `none` standing for NaN.
* scipy's exact one-sided binomial test (`binomtest(s, n, p, 'greater')`),
  an external collaborator, is embedded by its exact tail probability
  `binomPvalGreater`; scipy's `combine_pvalues` (Fisher's method, a
  transcendental computation on an external library) is kept as an opaque
  function parameter `fisher` of the aggregation, since no claim inspects
  its value.
* Pandas `sort_values` is embedded by `List.insertionSort`.  The claims
  proved below do not depend on the sorting algorithm beyond sortedness
  and permutation, which any correct implementation provides.

Rationals: the Python code computes fractions in floating point; following
the spec ("fractions are exact rational counts/depth; the binomial test is
exact") they are embedded as exact values in `ℚ`.
-/

attribute [local semireducible] Rat.add Rat.mul Rat.sub Rat.inv

/-- Python index normalisation for slices: a negative index counts from the
end of the sequence and the result is clamped to `[0, n]`. -/
def pyIndex (n : Nat) (i : Int) : Nat :=
  if i < 0 then ((n : Int) + i).toNat else min i.toNat n

/-- Python slice `l[a:b]` (step 1), with CPython clamping semantics. -/
def pySlice (l : List α) (a b : Int) : List α :=
  (l.take (pyIndex l.length b)).drop (pyIndex l.length a)

/-- Cursor state of the CIGAR walk in `_alignment_from_cigar`:
`new_seq`, `ref_seq`, `qual`, `inserts` are the accumulators, `pos` and
`ref_pos` the query and reference cursors. -/
structure CigState where
  new_seq : List Char
  ref_seq : List Char
  qual : List Int
  inserts : List (List Char)
  pos : Nat
  ref_pos : Nat
deriving DecidableEq

/-- One iteration of the `for op, op_len in cigar` loop of
`_alignment_from_cigar` (variantcaller.py lines 290-322).  Ops 5 and 6 hit
`continue`; any other op value (in particular op 8, the CIGAR `X`
sequence-mismatch op) matches no branch of the `if/elif` chain and leaves
the state untouched, exactly as in the source. -/
def cigarStep (alignment ref : List Char) (query_qualities : List Int)
    (s : CigState) (opl : Nat × Nat) : CigState :=
  let op := opl.1
  let op_len := opl.2
  if op = 0 then
    { s with new_seq := s.new_seq ++ pySlice alignment (s.pos : Int) ((s.pos : Int) + op_len),
             qual := s.qual ++ pySlice query_qualities (s.pos : Int) ((s.pos : Int) + op_len),
             ref_seq := s.ref_seq ++ pySlice ref (s.ref_pos : Int) ((s.ref_pos : Int) + op_len),
             pos := s.pos + op_len,
             ref_pos := s.ref_pos + op_len }
  else if op = 1 then
    { s with inserts := s.inserts ++ [pySlice alignment ((s.pos : Int) - 1) ((s.pos : Int) + op_len)],
             pos := s.pos + op_len }
  else if op = 2 then
    { s with new_seq := s.new_seq ++ List.replicate op_len '-',
             qual := s.qual ++ List.replicate op_len (-1),
             ref_seq := s.ref_seq ++ pySlice ref (s.ref_pos : Int) ((s.ref_pos : Int) + op_len),
             ref_pos := s.ref_pos + op_len }
  else if op = 3 then
    { s with new_seq := s.new_seq ++ List.replicate op_len '*',
             qual := s.qual ++ List.replicate op_len (-2),
             ref_pos := s.ref_pos + op_len }
  else if op = 4 then
    { s with inserts := s.inserts ++ [pySlice alignment (s.pos : Int) ((s.pos : Int) + op_len)],
             pos := s.pos + op_len }
  else if op = 7 then
    { s with new_seq := s.new_seq ++ pySlice alignment (s.pos : Int) ((s.pos : Int) + op_len),
             ref_seq := s.ref_seq ++ pySlice ref (s.ref_pos : Int) ((s.ref_pos : Int) + op_len),
             qual := s.qual ++ pySlice query_qualities (s.pos : Int) ((s.pos : Int) + op_len),
             pos := s.pos + op_len,
             ref_pos := s.ref_pos + op_len }
  else
    s

/-- Return value of `_alignment_from_cigar`: the tuple
`(new_seq, ref_seq, qual, inserts)`. -/
structure CigarOut where
  new_seq : List Char
  ref_seq : List Char
  qual : List Int
  inserts : List (List Char)
deriving DecidableEq

/-- `VariantCaller._alignment_from_cigar(cigar, alignment, ref,
query_qualities)` (variantcaller.py lines 258-323). -/
def alignmentFromCigar (cigar : List (Nat × Nat)) (alignment ref : List Char)
    (query_qualities : List Int) : CigarOut :=
  let f := cigar.foldl (cigarStep alignment ref query_qualities) ⟨[], [], [], [], 0, 0⟩
  ⟨f.new_seq, f.ref_seq, f.qual, f.inserts⟩

/-- The "make it totally align" padding of `_get_seq_df` (lines 362-363):
`seq = "-" * read.reference_start + seq + "-" * (len(ref_str) -
(read.reference_start + len(seq)))`.  Python `"-" * n` for negative `n` is
empty, which `Nat` truncated subtraction models exactly. -/
def padAligned (refLen reference_start : Nat) (seq : List Char) : List Char :=
  List.replicate reference_start '-' ++ seq ++
    List.replicate (refLen - (reference_start + seq.length)) '-'

/-- The fields of a pysam aligned-segment record that `_get_seq_df` reads.
`read_qual` embeds `read.qual`, the per-read sort key used for
deduplication (any linearly ordered key). -/
structure Read where
  query_name : String
  query_sequence : Option (List Char)
  query_qualities : List Int
  cigartuples : List (Nat × Nat)
  reference_start : Nat
  read_qual : Int
deriving DecidableEq

/-- One row of the per-well pileup matrix before the column loop:
the padded reconstructed sequence, the read id, and the sort key. -/
structure AlignedRow where
  seq : List Char
  read_id : String
  read_qual : Int
deriving DecidableEq

/-- Per-read reconstruction step of `_get_seq_df` (lines 357-366): reads
whose `query_sequence is None` are skipped, the rest are rebuilt with
`_alignment_from_cigar` and padded into the reference coordinate frame. -/
def alignRead (refStr : List Char) (r : Read) : Option AlignedRow :=
  match r.query_sequence with
  | none => none
  | some q =>
      some ⟨padAligned refStr.length r.reference_start
              (alignmentFromCigar r.cigartuples q refStr r.query_qualities).new_seq,
            r.query_name, r.read_qual⟩

/-- Decidable well-formedness bound: the reconstructed (unpadded) sequence
of every read fits inside the reference window.  Outside this domain the
Python code indexes `ref_str[col]` out of range and raises. -/
def alignedLenOK (refStr : List Char) (r : Read) : Bool :=
  match r.query_sequence with
  | none => true
  | some q =>
      decide (r.reference_start +
        (alignmentFromCigar r.cigartuples q refStr r.query_qualities).new_seq.length ≤
          refStr.length)

/-- Descending order on the per-read sort key: the relation used by
`seq_df.sort_values(by='read_qual', ascending=False)`. -/
def qualGE (a b : AlignedRow) : Prop := b.read_qual ≤ a.read_qual

instance : DecidableRel qualGE := fun a b => Int.decLe b.read_qual a.read_qual

instance : IsTotal AlignedRow qualGE := ⟨fun a b => le_total b.read_qual a.read_qual⟩

instance : IsTrans AlignedRow qualGE := ⟨fun _ _ _ h1 h2 => le_trans h2 h1⟩

/-- `drop_duplicates(subset=['read_id'], keep='first')`: keep the first
occurrence of every read id, scanning left to right. -/
def dedupByIdAux (seen : List String) : List AlignedRow → List AlignedRow
  | [] => []
  | r :: rest =>
      if r.read_id ∈ seen then dedupByIdAux seen rest
      else r :: dedupByIdAux (r.read_id :: seen) rest

/-- Lines 376-378 of `_get_seq_df`: sort by `read_qual` descending, then
drop duplicate read ids keeping the first (hence highest-quality) row. -/
def dedupReads (rows : List AlignedRow) : List AlignedRow :=
  dedupByIdAux [] (rows.insertionSort qualGE)

/-- One element of `rows_all` (line 429): the tally row
`[pos, col, ref_seq, actual_seq, p_value, val, a, t, g, c, nn, kmer]`,
with the dataframe's column names (line 443). -/
structure SeqRow where
  gene_name : String
  position : Nat
  ref : Char
  most_frequent : String
  p_value : ℚ
  percent_nonRef : ℚ
  A : Nat
  T : Nat
  G : Nat
  C : Nat
  N : Nat
  kmer : List Char
deriving DecidableEq

/-- The values of dataframe column `col`: one entry per pileup row.  (In
scope of the theorems below all rows have length `refStr.length`, so every
row contributes exactly one symbol, as in the pandas frame.) -/
def colVals (seqs : List (List Char)) (col : Nat) : List Char :=
  seqs.filterMap (fun s => s.get? col)

/-- The `if/if/.../if` cascade of lines 405-419, selecting the
highest-fraction non-reference symbol in the fixed order A, T, G, C, `-`
(reported as `DEL`), each update guarded by a strict `>` against the value
selected so far.  Returns `(val, actual_seq)`. -/
def pickVariant (refc : Char) (a t g c nn values : Nat) : ℚ × String :=
  let v0 : ℚ × String := (0, String.singleton refc)
  let v1 := if 0 < a ∧ 'A' ≠ refc ∧ v0.1 < (a : ℚ) / (values : ℚ) then ((a : ℚ) / (values : ℚ), "A") else v0
  let v2 := if 0 < t ∧ 'T' ≠ refc ∧ v1.1 < (t : ℚ) / (values : ℚ) then ((t : ℚ) / (values : ℚ), "T") else v1
  let v3 := if 0 < g ∧ 'G' ≠ refc ∧ v2.1 < (g : ℚ) / (values : ℚ) then ((g : ℚ) / (values : ℚ), "G") else v2
  let v4 := if 0 < c ∧ 'C' ≠ refc ∧ v3.1 < (c : ℚ) / (values : ℚ) then ((c : ℚ) / (values : ℚ), "C") else v3
  if 0 < nn ∧ '-' ≠ refc ∧ v4.1 < (nn : ℚ) / (values : ℚ) then ((nn : ℚ) / (values : ℚ), "DEL") else v4

/-- Exact one-sided tail of the binomial distribution:
`scipy.stats.binomtest(successes, trials, p, 'greater').pvalue`
(an exact test), the sum of `C(n,i) p^i (1-p)^(n-i)` over `i ≥ successes`. -/
def binomPvalGreater (successes trials : Nat) (p : ℚ) : ℚ :=
  (List.range (trials + 1)).foldr
    (fun i acc =>
      if successes ≤ i then (trials.choose i : ℚ) * p ^ i * (1 - p) ^ (trials - i) + acc else acc)
    0

/-- The body of the per-column tally (lines 386-429) once the column has
passed the `col - k/2 > 0` filter and the reference base `refc` is not a
gap: count symbols, pick the winning non-reference symbol (`val = 0.0` and
`actual_seq = ref_seq` when every symbol matches the reference), run the
binomial test with `int(val * values)` successes against background error
rate 0.1, and append the row. -/
def mkSeqRow (gene : String) (refStr : List Char) (k : Nat)
    (seqs : List (List Char)) (col : Nat) (refc : Char) : SeqRow :=
  let vc := colVals seqs col
  let values := vc.length
  let other := (vc.filter (fun ch => ch ≠ refc)).length
  let a := (vc.filter (fun ch => ch = 'A')).length
  let t := (vc.filter (fun ch => ch = 'T')).length
  let g := (vc.filter (fun ch => ch = 'G')).length
  let c := (vc.filter (fun ch => ch = 'C')).length
  let nn := (vc.filter (fun ch => ch = '-')).length
  let km := k / 2
  let kmer := pySlice refStr ((col : Int) - (km : Int)) ((col : Int) + (km : Int))
  let va := if other = 0 then ((0 : ℚ), String.singleton refc)
            else pickVariant refc a t g c nn values
  { gene_name := gene, position := col, ref := refc, most_frequent := va.2,
    p_value := binomPvalGreater (va.1 * (values : ℚ)).floor.toNat values (1/10),
    percent_nonRef := va.1, A := a, T := t, G := g, C := c, N := nn, kmer := kmer }

/-- One iteration of `for col in seq_df:` (lines 384-429): the column is
examined only when `col - k / 2 > 0`; `ref_seq = ref_str[col]` is then
read (out of range raises in Python, modelled as no row), and a row is
appended unless the reference base is the gap symbol. -/
def maybeRow (gene : String) (refStr : List Char) (k : Nat)
    (seqs : List (List Char)) (col : Nat) : Option SeqRow :=
  if (0 : ℚ) < (col : ℚ) - (k : ℚ) / 2 then
    (refStr.get? col).bind (fun refc =>
      if refc = '-' then none
      else some (mkSeqRow gene refStr k seqs col refc))
  else none

/-- The per-gene body of `_get_seq_df` (lines 343-429) producing
`rows_all`: gate on `len(reads) > min_coverage`, reconstruct the pileup
rows, gate again on `len(seqs) > min_coverage`, deduplicate by read id
keeping the highest-quality row, then walk the dataframe columns
(`0 .. width-1`, where `width` is the column count of
`pd.DataFrame(seqs)`, the maximum row length) appending one row per
qualifying column. -/
def getSeqRows (gene : String) (reads : List Read) (refStr : List Char)
    (min_coverage k : Nat) : List SeqRow :=
  if min_coverage < reads.length then
    if min_coverage < (reads.filterMap (alignRead refStr)).length then
      (List.range
          (((reads.filterMap (alignRead refStr)).map (fun x => x.seq.length)).foldr max 0)).filterMap
        (maybeRow gene refStr k
          ((dedupReads (reads.filterMap (alignRead refStr))).map (fun x => x.seq)))
    else []
  else []

/-- The per-well fields written by `get_variant_df`: the `Variant`,
`Probability` and `P value` cells.  `none` models a float NaN cell. -/
structure WellRecord where
  variant : Option String
  probability : Option ℚ
  p_value : Option ℚ
deriving DecidableEq

/-- `np.mean` of a list: NaN (modelled `none`) on the empty list. -/
def meanOpt (xs : List ℚ) : Option ℚ :=
  if xs.isEmpty then none else some (xs.sum / (xs.length : ℚ))

/-- Ascending order on `position`, the key of
`non_refs.sort_values(by='position')`. -/
def posLE (a b : SeqRow) : Prop := a.position ≤ b.position

instance : DecidableRel posLE := fun a b => Nat.decLe a.position b.position

/-- Lines 229-246 of `get_variant_df`: filter the pileup rows to those
with `percent_nonRef > threshold`, sort by position; if any remain, build
the `_`-joined label `<ref><pos+1><most_frequent>`, the mean alternate
fraction, and the Fisher-combined p-value (`fisher` embeds scipy
`combine_pvalues`, an external collaborator); otherwise label the well
`#PARENT#`, with `np.mean` over the *empty* `non_refs` list (NaN) as
`Probability` and NaN as the combined p-value. -/
def aggregateWell (rows : List SeqRow) (threshold : ℚ)
    (fisher : List ℚ → ℚ) : WellRecord :=
  let nonRefs :=
    (rows.filter (fun r => decide (threshold < r.percent_nonRef))).insertionSort posLE
  if 0 < nonRefs.length then
    { variant := some (String.intercalate "_"
        (nonRefs.map (fun r =>
          String.singleton r.ref ++ toString (r.position + 1) ++ r.most_frequent))),
      probability := meanOpt (nonRefs.map (fun r => r.percent_nonRef)),
      p_value := some (fisher (nonRefs.map (fun r => r.p_value))) }
  else
    { variant := some "#PARENT#",
      probability := meanOpt (nonRefs.map (fun r => 1 - r.percent_nonRef)),
      p_value := none }

/-- The per-well decision structure of `get_variant_df` (lines 205-250):
`P value` is initialised to `1.0` for every well; a well whose
`Alignment_count` is below `min_depth` gets NaN `Variant`/`Probability`
and keeps `P value = 1.0` (`continue`); a well whose `seq_df` is `None`
likewise; otherwise the well is aggregated from its pileup rows. -/
def processWell (alignment_count min_depth : Nat) (seqDf : Option (List SeqRow))
    (threshold : ℚ) (fisher : List ℚ → ℚ) : WellRecord :=
  if alignment_count < min_depth then ⟨none, none, some 1⟩
  else
    match seqDf with
    | none => ⟨none, none, some 1⟩
    | some rows => aggregateWell rows threshold fisher

/-- Lines 252-254: `P adj. value = len(df) * P value`, then
`1 if x > 1 else x`.  A NaN p-value propagates: `len * NaN` is NaN and
`NaN > 1` is false, so NaN is kept, without failing. -/
def bonferroniAdjust (well_count : Nat) (p : Option ℚ) : Option ℚ :=
  match p with
  | none => none
  | some x => some (if 1 < (well_count : ℚ) * x then 1 else (well_count : ℚ) * x)

/-- File-system state that the alignment invoker consults: whether the
per-well `alignment_minimap.bam` exists. -/
structure AlignState where
  bamExists : Bool
deriving DecidableEq

/-- Lines 208-214 of `get_variant_df`: `if not os.path.exists(bam_file):
self._align_sequences(row["Path"])`.  Returns the new state and whether
the external aligner was invoked; `_align_sequences` produces the sorted,
indexed BAM at the fixed per-well path. -/
def ensureAlignment (st : AlignState) : AlignState × Bool :=
  if st.bamExists then (st, false) else (⟨true⟩, true)

/-! ### Helper lemmas -/

theorem pyIndex_natCast (n i : Nat) : pyIndex n (i : Int) = min i n := by
  have h : ¬((i : Int) < 0) := by omega
  rw [pyIndex, if_neg h, Int.toNat_natCast]

theorem pyIndex_add_natCast (n a b : Nat) :
    pyIndex n ((a : Int) + (b : Int)) = min (a + b) n := by
  have h : ¬((a : Int) + (b : Int) < 0) := by omega
  rw [pyIndex, if_neg h, ← Nat.cast_add, Int.toNat_natCast]

theorem pySlice_natCast (l : List α) (a b : Nat) :
    pySlice l (a : Int) ((a : Int) + (b : Int)) =
      (l.take (min (a + b) l.length)).drop (min a l.length) := by
  rw [pySlice, pyIndex_natCast, pyIndex_add_natCast]

theorem drop_replicate_append (n : Nat) (c : Char) (l : List Char) :
    (List.replicate n c ++ l).drop n = l := by
  simp

theorem take_replicate_append (n : Nat) (c : Char) (l : List Char) :
    (List.replicate n c ++ l).take n = List.replicate n c := by
  simp

theorem cigarStep_full_match (q ref : List Char) (quals : List Int) :
    (cigarStep q ref quals ⟨[], [], [], [], 0, 0⟩ (0, q.length)).new_seq = q := by
  simp only [cigarStep, if_pos rfl]
  rw [pySlice_natCast]
  simp

/-! ### Claim C1 -/

/-- Claim C1: a read whose alignment-operation sequence is a single match
operation covering the full query reconstructs to exactly its query
sequence; after the left/right gap padding of `_get_seq_df` the aligned
output is the query placed at `reference_start` in the reference
coordinate frame (gaps before, the query at the offset, total length the
reference window); with offset 0 and a window of the query's length the
output is the query exactly. -/
theorem C1_roundtrip (q ref : List Char) (quals : List Int) (offset : Nat)
    (h : offset + q.length ≤ ref.length) :
    (alignmentFromCigar [(0, q.length)] q ref quals).new_seq = q ∧
    ((padAligned ref.length offset
        (alignmentFromCigar [(0, q.length)] q ref quals).new_seq).drop offset).take q.length = q ∧
    (padAligned ref.length offset
        (alignmentFromCigar [(0, q.length)] q ref quals).new_seq).take offset =
      List.replicate offset '-' ∧
    (padAligned ref.length offset
        (alignmentFromCigar [(0, q.length)] q ref quals).new_seq).length = ref.length ∧
    padAligned q.length 0 (alignmentFromCigar [(0, q.length)] q ref quals).new_seq = q := by
  have hns : (alignmentFromCigar [(0, q.length)] q ref quals).new_seq = q := by
    simp [alignmentFromCigar]
    exact cigarStep_full_match q ref quals
  refine ⟨hns, ?_, ?_, ?_, ?_⟩
  · rw [hns]
    unfold padAligned
    rw [List.append_assoc, drop_replicate_append, List.take_left]
  · rw [hns]
    unfold padAligned
    rw [List.append_assoc, take_replicate_append]
  · rw [hns]
    simp [padAligned]
    omega
  · rw [hns]
    simp [padAligned]

/-- Witness for C1: query `AC` at offset 1 inside a window of length 4. -/
theorem C1_roundtrip_witness :
    (alignmentFromCigar [(0, 2)] ['A', 'C'] ['A', 'T', 'G', 'C'] [7, 7]).new_seq = ['A', 'C'] ∧
    ((padAligned 4 1
        (alignmentFromCigar [(0, 2)] ['A', 'C'] ['A', 'T', 'G', 'C'] [7, 7]).new_seq).drop 1).take 2 =
      ['A', 'C'] ∧
    (padAligned 4 1
        (alignmentFromCigar [(0, 2)] ['A', 'C'] ['A', 'T', 'G', 'C'] [7, 7]).new_seq).take 1 =
      List.replicate 1 '-' ∧
    (padAligned 4 1
        (alignmentFromCigar [(0, 2)] ['A', 'C'] ['A', 'T', 'G', 'C'] [7, 7]).new_seq).length = 4 ∧
    padAligned 2 0 (alignmentFromCigar [(0, 2)] ['A', 'C'] ['A', 'T', 'G', 'C'] [7, 7]).new_seq =
      ['A', 'C'] :=
  C1_roundtrip ['A', 'C'] ['A', 'T', 'G', 'C'] [7, 7] 1 (by decide)

/-! ### Claim C2 -/

/-- Claim C2 (code bug): the CIGAR walk of `_alignment_from_cigar` has no
branch for op 8 (`X`, sequence mismatch), although its own docstring
declares that op 8 consumes both query and reference.  A mismatch
operation therefore consumes nothing and copies nothing: the walk returns
the untouched initial accumulators, not the claimed copied bases. -/
theorem C2_mismatch_op_is_ignored (op_len : Nat) (q ref : List Char) (quals : List Int) :
    alignmentFromCigar [(8, op_len)] q ref quals = ⟨[], [], [], []⟩ := by
  simp [alignmentFromCigar, cigarStep]

/-! ### Claim C3 -/

/-- Claim C3 counterexample: for the cigar `1M 2I 1M` on query `ACGT`, the
insertion of length 2 appends `alignment[pos-1:pos+2] = "ACG"` — three
characters, the preceding matched base plus the two inserted bases — to
the inserts side-list, not exactly the `L = 2` inserted bases `"CG"`. -/
theorem C3_counterexample :
    (alignmentFromCigar [(0, 1), (1, 2), (0, 1)] ['A', 'C', 'G', 'T'] ['A', 'T']
        [10, 20, 30, 40]).inserts = [['A', 'C', 'G']] ∧
    [['A', 'C', 'G']] ≠ [['C', 'G']] := by decide

/-- Claim C3 amended: an insertion of length `L` leaves the aligned string
and its quality array unchanged, advances the query cursor by `L`, and
appends the slice `alignment[pos-1 : pos+L]` — the query base immediately
preceding the insertion together with the `L` inserted bases, `L + 1`
characters in total when `pos ≥ 1` and the slice lies inside the query —
to the inserts side-list. -/
theorem C3_insertion_amended (alignment ref : List Char) (quals : List Int)
    (s : CigState) (op_len : Nat) (h1 : 1 ≤ s.pos)
    (h2 : s.pos + op_len ≤ alignment.length) :
    cigarStep alignment ref quals s (1, op_len) =
      { s with inserts := s.inserts ++
                 [pySlice alignment ((s.pos : Int) - 1) ((s.pos : Int) + op_len)],
               pos := s.pos + op_len } ∧
    (pySlice alignment ((s.pos : Int) - 1) ((s.pos : Int) + op_len)).length = op_len + 1 := by
  constructor
  · simp [cigarStep]
  · have hneg : ¬((s.pos : Int) - 1 < 0) := by omega
    have hneg2 : ¬((s.pos : Int) + (op_len : Int) < 0) := by omega
    simp [pySlice, pyIndex, hneg, hneg2]
    omega

/-- Witness for C3 amended: an insertion of length 2 after one matched
base of query `ACGT` appends a slice of length 3. -/
theorem C3_insertion_amended_witness :
    (pySlice ['A', 'C', 'G', 'T'] ((((⟨['A'], [], [10], [], 1, 0⟩ : CigState).pos : Nat) : Int) - 1)
        ((((⟨['A'], [], [10], [], 1, 0⟩ : CigState).pos : Nat) : Int) + (2 : Nat))).length = 2 + 1 :=
  (C3_insertion_amended ['A', 'C', 'G', 'T'] [] [] ⟨['A'], [], [10], [], 1, 0⟩ 2
    (by decide) (by decide)).2

/-! ### Deduplication lemmas -/

theorem dedupByIdAux_mem {seen : List String} {l : List AlignedRow} {r : AlignedRow}
    (h : r ∈ dedupByIdAux seen l) : r ∈ l ∧ r.read_id ∉ seen := by
  induction l generalizing seen with
  | nil => simp [dedupByIdAux] at h
  | cons x xs ih =>
    simp only [dedupByIdAux] at h
    by_cases hx : x.read_id ∈ seen
    · rw [if_pos hx] at h
      obtain ⟨h1, h2⟩ := ih h
      exact ⟨List.mem_cons_of_mem x h1, h2⟩
    · rw [if_neg hx] at h
      rcases List.mem_cons.mp h with rfl | h'
      · exact ⟨List.mem_cons_self _ _, hx⟩
      · obtain ⟨h1, h2⟩ := ih h'
        exact ⟨List.mem_cons_of_mem x h1, fun hs => h2 (List.mem_cons_of_mem _ hs)⟩

theorem dedupByIdAux_nodup (seen : List String) (l : List AlignedRow) :
    ((dedupByIdAux seen l).map (fun r => r.read_id)).Nodup := by
  induction l generalizing seen with
  | nil => simp [dedupByIdAux]
  | cons x xs ih =>
    simp only [dedupByIdAux]
    by_cases hx : x.read_id ∈ seen
    · rw [if_pos hx]; exact ih seen
    · rw [if_neg hx]
      simp only [List.map_cons, List.nodup_cons]
      refine ⟨?_, ih _⟩
      intro hmem
      obtain ⟨r, hr, hid⟩ := List.mem_map.mp hmem
      have hnot := (dedupByIdAux_mem hr).2
      apply hnot
      rw [hid]
      exact List.mem_cons_self _ _

theorem dedupByIdAux_covers {seen : List String} {l : List AlignedRow} :
    ∀ r ∈ l, r.read_id ∉ seen → ∃ r' ∈ dedupByIdAux seen l, r'.read_id = r.read_id := by
  induction l generalizing seen with
  | nil => intro r hr; simp at hr
  | cons x xs ih =>
    intro r hr hrs
    simp only [dedupByIdAux]
    by_cases hx : x.read_id ∈ seen
    · rw [if_pos hx]
      rcases List.mem_cons.mp hr with rfl | h'
      · exact absurd hx hrs
      · exact ih r h' hrs
    · rw [if_neg hx]
      rcases List.mem_cons.mp hr with rfl | h'
      · exact ⟨r, List.mem_cons_self _ _, rfl⟩
      · by_cases hid : r.read_id = x.read_id
        · exact ⟨x, List.mem_cons_self _ _, hid.symm⟩
        · obtain ⟨r', hr', hrid⟩ := ih r h' (by
            intro hc
            rcases List.mem_cons.mp hc with h | h
            · exact hid h
            · exact hrs h)
          exact ⟨r', List.mem_cons_of_mem _ hr', hrid⟩

theorem dedupByIdAux_maxqual {seen : List String} {l : List AlignedRow}
    (hs : l.Sorted qualGE) :
    ∀ r' ∈ dedupByIdAux seen l, ∀ r ∈ l, r.read_id = r'.read_id →
      r.read_qual ≤ r'.read_qual := by
  induction l generalizing seen with
  | nil => intro r' hr'; simp [dedupByIdAux] at hr'
  | cons x xs ih =>
    intro r' hr' r hr hid
    have hs' : xs.Sorted qualGE := hs.of_cons
    have hx_all : ∀ y ∈ xs, qualGE x y := List.rel_of_sorted_cons hs
    simp only [dedupByIdAux] at hr'
    by_cases hx : x.read_id ∈ seen
    · rw [if_pos hx] at hr'
      have hnots := (dedupByIdAux_mem hr').2
      rcases List.mem_cons.mp hr with rfl | hrxs
      · exact absurd (hid ▸ hx) hnots
      · exact ih hs' r' hr' r hrxs hid
    · rw [if_neg hx] at hr'
      rcases List.mem_cons.mp hr' with rfl | hr'aux
      · rcases List.mem_cons.mp hr with rfl | hrxs
        · exact le_refl _
        · exact hx_all r hrxs
      · have hnots := (dedupByIdAux_mem hr'aux).2
        rcases List.mem_cons.mp hr with rfl | hrxs
        · exact absurd (by rw [← hid]; exact List.mem_cons_self _ _) hnots
        · exact ih hs' r' hr'aux r hrxs hid

theorem dedupReads_sub {rows : List AlignedRow} {r' : AlignedRow}
    (h : r' ∈ dedupReads rows) : r' ∈ rows :=
  (List.perm_insertionSort qualGE rows).mem_iff.mp (dedupByIdAux_mem h).1

/-! ### Claim C8 -/

/-- Claim C8: after the sort-then-deduplicate step of `_get_seq_df`, each
distinct read id contributes at most one pileup row (the kept ids are
pairwise distinct); every incoming read id is still represented by exactly
one kept row; and every kept row comes from the input and carries the
maximal `read_qual` among all input rows sharing its read id. -/
theorem C8_dedup (rows : List AlignedRow) :
    ((dedupReads rows).map (fun r => r.read_id)).Nodup ∧
    (∀ r ∈ rows, ∃ r' ∈ dedupReads rows, r'.read_id = r.read_id) ∧
    (∀ r' ∈ dedupReads rows, r' ∈ rows ∧
      ∀ r ∈ rows, r.read_id = r'.read_id → r.read_qual ≤ r'.read_qual) := by
  refine ⟨dedupByIdAux_nodup [] _, ?_, ?_⟩
  · intro r hr
    have hmem : r ∈ rows.insertionSort qualGE :=
      (List.perm_insertionSort qualGE rows).mem_iff.mpr hr
    exact dedupByIdAux_covers r hmem (by simp)
  · intro r' hr'
    refine ⟨dedupReads_sub hr', ?_⟩
    intro r hr hid
    have hs := List.sorted_insertionSort qualGE rows
    exact dedupByIdAux_maxqual hs r' hr' r
      ((List.perm_insertionSort qualGE rows).mem_iff.mpr hr) hid

/-- Witness for C8: of two records sharing read id `r1` with qualities 3
and 7, the kept one has the larger quality. -/
theorem C8_dedup_witness :
    (⟨['A'], "r1", 3⟩ : AlignedRow).read_qual ≤ (⟨['C'], "r1", 7⟩ : AlignedRow).read_qual :=
  ((C8_dedup [⟨['A'], "r1", 3⟩, ⟨['C'], "r1", 7⟩]).2.2 ⟨['C'], "r1", 7⟩ (by decide)).2
    ⟨['A'], "r1", 3⟩ (by decide) (by decide)

/-! ### Claim C9 -/

/-- Claim C9: if the per-well alignment file already exists, the variant
caller's existence check (`if not os.path.exists(bam_file)`) skips the
external aligner entirely and the state is unchanged; moreover a second
invocation after any first one never invokes the aligner again. -/
theorem C9_idempotent (st : AlignState) (h : st.bamExists = true) :
    ensureAlignment st = (st, false) ∧
    (ensureAlignment (ensureAlignment st).1).2 = false := by
  have h1 : ensureAlignment st = (st, false) := by
    unfold ensureAlignment
    rw [if_pos h]
  refine ⟨h1, ?_⟩
  rw [h1]
  unfold ensureAlignment
  rw [if_pos h]

/-- Witness for C9: a well whose alignment file exists is not re-aligned. -/
theorem C9_idempotent_witness :
    ensureAlignment ⟨true⟩ = (⟨true⟩, false) ∧
    (ensureAlignment (ensureAlignment ⟨true⟩).1).2 = false :=
  C9_idempotent ⟨true⟩ (by decide)

/-! ### Pileup width and column lemmas -/

theorem alignRead_some_len {refStr : List Char} {r : Read} {ar : AlignedRow}
    (hOK : alignedLenOK refStr r = true) (h : alignRead refStr r = some ar) :
    ar.seq.length = refStr.length := by
  unfold alignRead at h
  unfold alignedLenOK at hOK
  cases hq : r.query_sequence with
  | none => rw [hq] at h; exact absurd h (by simp)
  | some q =>
    rw [hq] at h hOK
    have hb : r.reference_start +
        (alignmentFromCigar r.cigartuples q refStr r.query_qualities).new_seq.length ≤
          refStr.length := of_decide_eq_true hOK
    cases Option.some.inj h
    simp [padAligned]
    omega

theorem foldr_max_const (l : List Nat) (n : Nat) (hne : l ≠ []) (h : ∀ x ∈ l, x = n) :
    l.foldr max 0 = n := by
  induction l with
  | nil => exact absurd rfl hne
  | cons x xs ih =>
    have hx : x = n := h x (List.mem_cons_self _ _)
    cases xs with
    | nil => simp [hx]
    | cons y ys =>
      have htail : (y :: ys).foldr max 0 = n :=
        ih (by simp) (fun z hz => h z (List.mem_cons_of_mem _ hz))
      simp only [List.foldr_cons] at htail ⊢
      rw [hx, htail, max_self]

theorem width_eq_refLen (reads : List Read) (refStr : List Char)
    (hfit : ∀ r ∈ reads, alignedLenOK refStr r = true)
    (hne : reads.filterMap (alignRead refStr) ≠ []) :
    ((reads.filterMap (alignRead refStr)).map (fun x => x.seq.length)).foldr max 0 =
      refStr.length := by
  apply foldr_max_const
  · simpa using hne
  · intro x hx
    obtain ⟨ar, har, hl⟩ := List.mem_map.mp hx
    obtain ⟨r, hr, hsome⟩ := List.mem_filterMap.mp har
    rw [← hl]
    exact alignRead_some_len (hfit r hr) hsome

theorem lt_length_of_get?_some {l : List α} {n : Nat} {a : α} (h : l.get? n = some a) :
    n < l.length := by
  have h2 := List.get?_eq_some.mp h
  exact h2.1

theorem maybeRow_eq_some {gene : String} {refStr : List Char} {k : Nat}
    {seqs : List (List Char)} {col : Nat} {row : SeqRow}
    (h : maybeRow gene refStr k seqs col = some row) :
    row.position = col ∧ (0 : ℚ) < (col : ℚ) - (k : ℚ) / 2 ∧
      ∃ refc, refStr.get? col = some refc ∧ refc ≠ '-' := by
  unfold maybeRow at h
  by_cases hc : (0 : ℚ) < (col : ℚ) - (k : ℚ) / 2
  · rw [if_pos hc] at h
    cases hr : refStr.get? col with
    | none =>
      rw [hr, Option.none_bind] at h
      exact absurd h (by simp)
    | some refc =>
      rw [hr, Option.some_bind] at h
      by_cases hne : refc = '-'
      · rw [if_pos hne] at h; exact absurd h (by simp)
      · rw [if_neg hne] at h
        have hm := Option.some.inj h
        refine ⟨?_, hc, refc, rfl, hne⟩
        rw [← hm]
        rfl
  · rw [if_neg hc] at h; exact absurd h (by simp)

theorem maybeRow_some_mk {gene : String} {refStr : List Char} {k : Nat}
    {seqs : List (List Char)} {col : Nat} {refc : Char}
    (hc : (0 : ℚ) < (col : ℚ) - (k : ℚ) / 2)
    (hr : refStr.get? col = some refc) (hne : refc ≠ '-') :
    maybeRow gene refStr k seqs col = some (mkSeqRow gene refStr k seqs col refc) := by
  unfold maybeRow
  rw [if_pos hc, hr, Option.some_bind, if_neg hne]

/-! ### Claim C4 -/

/-- Claim C4 counterexample: with minimum coverage 2, a pileup of exactly
2 contributing reads (count equal to the minimum, not below it) is
skipped entirely — no position is tallied — while the same pileup with one
more read yields tally rows.  The coverage gates of `_get_seq_df` are
`len(reads) > min_coverage` and `len(seqs) > min_coverage`, both strict. -/
theorem C4_counterexample :
    getSeqRows "g"
      [⟨"r1", some ['A', 'T', 'G', 'C', 'A', 'A'], [10, 10, 10, 10, 10, 10], [(0, 6)], 0, 5⟩,
       ⟨"r2", some ['A', 'T', 'G', 'C', 'A', 'A'], [10, 10, 10, 10, 10, 10], [(0, 6)], 0, 4⟩]
      ['A', 'T', 'G', 'C', 'A', 'T'] 2 8 = [] ∧
    getSeqRows "g"
      [⟨"r1", some ['A', 'T', 'G', 'C', 'A', 'A'], [10, 10, 10, 10, 10, 10], [(0, 6)], 0, 5⟩,
       ⟨"r2", some ['A', 'T', 'G', 'C', 'A', 'A'], [10, 10, 10, 10, 10, 10], [(0, 6)], 0, 4⟩,
       ⟨"r3", some ['A', 'T', 'G', 'C', 'A', 'A'], [10, 10, 10, 10, 10, 10], [(0, 6)], 0, 3⟩]
      ['A', 'T', 'G', 'C', 'A', 'T'] 2 8 ≠ [] := by decide

/-- Claim C4 amended: a reference column is tallied (contributes a row
that may yield a PositionCall) exactly when the fetched-read count
*strictly exceeds* the minimum coverage (a count equal to the minimum is
skipped), the count of reads with a present query sequence also strictly
exceeds the minimum, the column passes the `col - k/2 > 0` index filter,
and the reference base at that column exists and is not a gap.  Stated for
pileups whose reconstructed reads fit inside the reference window (outside
this domain the Python code raises an `IndexError`). -/
theorem C4_tally_amended (gene : String) (reads : List Read) (refStr : List Char)
    (min_coverage k col : Nat)
    (hfit : ∀ r ∈ reads, alignedLenOK refStr r = true) :
    (∃ row ∈ getSeqRows gene reads refStr min_coverage k, row.position = col) ↔
      (min_coverage < reads.length ∧
       min_coverage < (reads.filterMap (alignRead refStr)).length ∧
       (0 : ℚ) < (col : ℚ) - (k : ℚ) / 2 ∧
       ∃ refc, refStr.get? col = some refc ∧ refc ≠ '-') := by
  by_cases h1 : min_coverage < reads.length
  case neg => simp [getSeqRows, h1]
  case pos =>
    by_cases h2 : min_coverage < (reads.filterMap (alignRead refStr)).length
    case neg => simp [getSeqRows, h1, h2]
    case pos =>
      have hne : reads.filterMap (alignRead refStr) ≠ [] := by
        intro hnil
        rw [hnil] at h2
        simp at h2
      have hw := width_eq_refLen reads refStr hfit hne
      simp only [getSeqRows, if_pos h1, if_pos h2, hw]
      constructor
      · rintro ⟨row, hrow, hpos⟩
        obtain ⟨c, _, hc_some⟩ := List.mem_filterMap.mp hrow
        obtain ⟨hposc, hcond, refc, hget, hne'⟩ := maybeRow_eq_some hc_some
        have hceq : c = col := by rw [← hpos, hposc]
        subst hceq
        exact ⟨h1, h2, hcond, refc, hget, hne'⟩
      · rintro ⟨-, -, hcond, refc, hget, hne'⟩
        exact ⟨mkSeqRow gene refStr k
            ((dedupReads (reads.filterMap (alignRead refStr))).map (fun x => x.seq)) col refc,
          List.mem_filterMap.mpr
            ⟨col, List.mem_range.mpr (lt_length_of_get?_some hget),
             maybeRow_some_mk hcond hget hne'⟩,
          rfl⟩

/-- Witness for C4 amended: with 3 reads over minimum coverage 2, column 5
of the window `ATGCAT` (reference base `T`, not a gap, index above
`k/2 = 4`) is tallied. -/
theorem C4_tally_amended_witness :
    ∃ row ∈ getSeqRows "g"
      [⟨"r1", some ['A', 'T', 'G', 'C', 'A', 'A'], [10, 10, 10, 10, 10, 10], [(0, 6)], 0, 5⟩,
       ⟨"r2", some ['A', 'T', 'G', 'C', 'A', 'A'], [10, 10, 10, 10, 10, 10], [(0, 6)], 0, 4⟩,
       ⟨"r3", some ['A', 'T', 'G', 'C', 'A', 'A'], [10, 10, 10, 10, 10, 10], [(0, 6)], 0, 3⟩]
      ['A', 'T', 'G', 'C', 'A', 'T'] 2 8, row.position = 5 :=
  (C4_tally_amended "g"
      [⟨"r1", some ['A', 'T', 'G', 'C', 'A', 'A'], [10, 10, 10, 10, 10, 10], [(0, 6)], 0, 5⟩,
       ⟨"r2", some ['A', 'T', 'G', 'C', 'A', 'A'], [10, 10, 10, 10, 10, 10], [(0, 6)], 0, 4⟩,
       ⟨"r3", some ['A', 'T', 'G', 'C', 'A', 'A'], [10, 10, 10, 10, 10, 10], [(0, 6)], 0, 3⟩]
      ['A', 'T', 'G', 'C', 'A', 'T'] 2 8 5 (by decide)).mpr
    ⟨by decide, by decide, by decide, 'T', by decide, by decide⟩

/-! ### Claim C10 -/

/-- Claim C10 counterexample: a pileup with ample coverage and a clear
non-reference signal at column index 4 (query `T` against reference `A`)
emits no row for column 4 — refuting the reading on which only the first
four columns (indices 0-3) are excluded for `k = 8` — while the pipeline
is live (a row is emitted at column 5).  Five columns, indices 0 through
4, are excluded. -/
theorem C10_counterexample :
    ((getSeqRows "g"
        [⟨"r1", some ['A', 'T', 'G', 'C', 'T', 'T'], [10, 10, 10, 10, 10, 10], [(0, 6)], 0, 5⟩]
        ['A', 'T', 'G', 'C', 'A', 'T'] 0 8).all (fun row => row.position != 4) = true) ∧
    0 < (getSeqRows "g"
        [⟨"r1", some ['A', 'T', 'G', 'C', 'T', 'T'], [10, 10, 10, 10, 10, 10], [(0, 6)], 0, 5⟩]
        ['A', 'T', 'G', 'C', 'A', 'T'] 0 8).length := by decide

/-- Claim C10 amended: every row emitted by the pileup tally satisfies the
column filter `col - k/2 > 0`: a reference column whose zero-based index
is at most `k/2` — the first **five** columns, indices 0 through 4, under
the default `k = 8` — is never examined and can never yield a
PositionCall, regardless of coverage or observed symbols. -/
theorem C10_column_filter (gene : String) (reads : List Read) (refStr : List Char)
    (min_coverage k : Nat) (row : SeqRow)
    (h : row ∈ getSeqRows gene reads refStr min_coverage k) :
    (0 : ℚ) < ((row.position : ℚ)) - (k : ℚ) / 2 := by
  unfold getSeqRows at h
  by_cases h1 : min_coverage < reads.length
  · rw [if_pos h1] at h
    by_cases h2 : min_coverage < (reads.filterMap (alignRead refStr)).length
    · rw [if_pos h2] at h
      obtain ⟨c, _, hsome⟩ := List.mem_filterMap.mp h
      obtain ⟨hpos, hcond, _⟩ := maybeRow_eq_some hsome
      rw [hpos]
      exact hcond
    · rw [if_neg h2] at h
      simp at h
  · rw [if_neg h1] at h
    simp at h

/-- Witness for C10 amended: the single row produced by a one-read pileup
sits at column 5, above the `k/2 = 4` cutoff. -/
theorem C10_column_filter_witness :
    (0 : ℚ) <
      (((⟨"g", 5, 'T', "T", 1, 0, 0, 1, 0, 0, 0,
          ['T', 'G', 'C', 'A', 'T']⟩ : SeqRow).position : ℚ)) - (8 : ℚ) / 2 :=
  C10_column_filter "g"
    [⟨"r1", some ['A', 'T', 'G', 'C', 'T', 'T'], [10, 10, 10, 10, 10, 10], [(0, 6)], 0, 5⟩]
    ['A', 'T', 'G', 'C', 'A', 'T'] 0 8 _ (by decide)

/-! ### Claim C5 -/

/-- Claim C5 counterexample: for a pileup whose two tally rows both have
alternate fraction `0` (below the threshold `1/5`), the `#PARENT#` branch
computes `np.mean` over the *empty* filtered list, so the reported average
mutation frequency is NaN (`none`), not the explicit value `0` that the
claim requires. -/
theorem C5_counterexample :
    (aggregateWell
        [⟨"g", 5, 'T', "T", 1, 0, 0, 3, 0, 0, 0, ['T']⟩,
         ⟨"g", 6, 'A', "A", 1, 0, 3, 0, 0, 0, 0, ['A']⟩]
        (1/5) (fun _ => 1)).probability = none ∧
    (none : Option ℚ) ≠ some 0 := by decide

/-- Claim C5 amended: for every well whose pileup rows all have alternate
fraction at most the threshold, the aggregator produces label `#PARENT#`
with zero PositionCalls and records the combined p-value as an explicit
missing value (NaN, modelled `none`); however the average mutation
frequency is the mean of an empty collection — an undefined/NaN value —
rather than the explicit value 0. -/
theorem C5_parent_amended (rows : List SeqRow) (threshold : ℚ)
    (fisher : List ℚ → ℚ)
    (h : ∀ r ∈ rows, r.percent_nonRef ≤ threshold) :
    aggregateWell rows threshold fisher = ⟨some "#PARENT#", none, none⟩ := by
  unfold aggregateWell
  have hfil : rows.filter (fun r => decide (threshold < r.percent_nonRef)) = [] := by
    rw [List.filter_eq_nil_iff]
    intro r hr
    simp only [decide_eq_true_eq]
    exact not_lt.mpr (h r hr)
  rw [hfil]
  simp [List.insertionSort, meanOpt]

/-- Witness for C5 amended: a one-row pileup whose single alternate
fraction `0` is below the threshold `1/5` aggregates to the `#PARENT#`
record with NaN probability and NaN combined p-value. -/
theorem C5_parent_amended_witness :
    aggregateWell [⟨"g", 5, 'T', "T", 1, 0, 0, 3, 0, 0, 0, ['T']⟩] (1/5) (fun _ => 1) =
      ⟨some "#PARENT#", none, none⟩ :=
  C5_parent_amended [⟨"g", 5, 'T', "T", 1, 0, 0, 3, 0, 0, 0, ['T']⟩] (1/5) (fun _ => 1)
    (by decide)

/-! ### Claim C6 -/

/-- Claim C6: a well whose alignment count is strictly below the minimum
depth is emitted with the NaN `Variant` sentinel, which differs from
`some "#PARENT#"` and from `some s` for every real variant label `s`; its
`P value` cell keeps the initialisation `1.0`, on which the Bonferroni
adjustment step completes with the defined value `1` (for any positive
well count), and the adjustment likewise tolerates an undefined (NaN)
p-value without failing, propagating `none`. -/
theorem C6_low_depth (alignment_count min_depth well_count : Nat)
    (seqDf : Option (List SeqRow)) (threshold : ℚ) (fisher : List ℚ → ℚ)
    (h : alignment_count < min_depth) :
    (processWell alignment_count min_depth seqDf threshold fisher).variant = none ∧
    (∀ s : String,
      (processWell alignment_count min_depth seqDf threshold fisher).variant ≠ some s) ∧
    (1 ≤ well_count →
      bonferroniAdjust well_count
        (processWell alignment_count min_depth seqDf threshold fisher).p_value = some 1) ∧
    bonferroniAdjust well_count none = none := by
  have hp : processWell alignment_count min_depth seqDf threshold fisher =
      ⟨none, none, some 1⟩ := by
    unfold processWell
    rw [if_pos h]
  rw [hp]
  refine ⟨rfl, fun s => by simp, fun hn => ?_, rfl⟩
  unfold bonferroniAdjust
  simp only [mul_one, Option.some.injEq]
  rcases lt_or_le 1 ((well_count : ℚ)) with hgt | hle
  · rw [if_pos hgt]
  · rw [if_neg (not_lt.mpr hle)]
    have h1' : (1 : ℚ) ≤ (well_count : ℚ) := by exact_mod_cast hn
    exact le_antisymm hle h1'

/-- Witness for C6: a well with alignment count 1 against minimum depth 5
in a 3-well table. -/
theorem C6_low_depth_witness :
    (processWell 1 5 none 0 (fun _ => 1)).variant = none ∧
    (processWell 1 5 none 0 (fun _ => 1)).variant ≠ some "#PARENT#" ∧
    bonferroniAdjust 3 (processWell 1 5 none 0 (fun _ => 1)).p_value = some 1 ∧
    bonferroniAdjust 3 none = none := by
  obtain ⟨h1, h2, h3, h4⟩ := C6_low_depth 1 5 3 none 0 (fun _ => 1) (by decide)
  exact ⟨h1, h2 "#PARENT#", h3 (by decide), h4⟩

/-! ### Claim C7 -/

/-- Claim C7: for every raw p-value `p ∈ [0, 1]` and well count `N`, the
Bonferroni step (`len(df) * p`, then clamp at 1) computes
`min(1, p * N)`; the boundary cases hold: `p = 1` gives adjusted value `1`
for every `N ≥ 1`, and `p = 0` gives adjusted value `0`. -/
theorem C7_bonferroni (well_count : Nat) (p : ℚ) (h0 : 0 ≤ p) (h1 : p ≤ 1) :
    bonferroniAdjust well_count (some p) = some (min 1 (p * (well_count : ℚ))) ∧
    bonferroniAdjust (well_count + 1) (some 1) = some 1 ∧
    bonferroniAdjust well_count (some 0) = some 0 := by
  have key : ∀ x : ℚ, (if 1 < x then (1 : ℚ) else x) = min 1 x := by
    intro x
    rcases lt_or_le 1 x with hx | hx
    · rw [if_pos hx, min_eq_left hx.le]
    · rw [if_neg (not_lt.mpr hx), min_eq_right hx]
  refine ⟨?_, ?_, ?_⟩
  · show some (if 1 < (well_count : ℚ) * p then (1 : ℚ) else (well_count : ℚ) * p) =
      some (min 1 (p * (well_count : ℚ)))
    rw [key, mul_comm]
  · show some (if 1 < ((well_count + 1 : Nat) : ℚ) * 1 then (1 : ℚ)
        else ((well_count + 1 : Nat) : ℚ) * 1) = some 1
    simp only [mul_one, Option.some.injEq]
    rcases Nat.eq_zero_or_pos well_count with rfl | hw
    · norm_num
    · have hgt : (1 : ℚ) < ((well_count + 1 : Nat) : ℚ) := by
        push_cast
        have h1w : (1 : ℚ) ≤ (well_count : ℚ) := by exact_mod_cast hw
        linarith
      rw [if_pos hgt]
  · show some (if 1 < (well_count : ℚ) * 0 then (1 : ℚ) else (well_count : ℚ) * 0) = some 0
    simp

/-- Witness for C7: `p = 1/2` over 2 wells adjusts to `min(1, 1/2 · 2)`,
`p = 1` over 3 wells stays 1, `p = 0` stays 0. -/
theorem C7_bonferroni_witness :
    bonferroniAdjust 2 (some (mkRat 1 2)) = some (min 1 (mkRat 1 2 * (2 : ℚ))) ∧
    bonferroniAdjust 3 (some 1) = some 1 ∧
    bonferroniAdjust 2 (some 0) = some 0 :=
  C7_bonferroni 2 (mkRat 1 2) (by decide) (by decide)
